import Mathlib

/-!
Shallow embedding of `pkg/bloomgateway/worker.go` (bloom gateway worker loop)
and proofs about its observable behaviour.

The embedding models one iteration of the `default:` branch of
`worker.running` (worker.go lines 118-250) as a pure function from

  * the external environment (the bloom store / shipper, whose results the
    iteration consumes), and
  * the dequeued batch (list of queue items plus an optional dequeue error)

to a trace of observable events (sends on task result channels, sends on task
error channels, `Close` calls, `ReleaseRequests` calls, metric increments and
store calls) together with a loop outcome (continue, or one of the three
early-return exits).

Times are modelled at day granularity as natural numbers.  Go `map` iteration
order is unspecified; the model fixes first-insertion order for the
`tasksByDay` map (the per-day independence lemmas show the per-day event
blocks do not depend on each other, so this is one admissible schedule).

Cancellation tokens are externally set at arbitrary real times; the worker is
sequential and observes a token only at three kinds of call sites
(`task.Err()` checks): right after dequeue (worker.go line 158), in the
per-day `slices.DeleteFunc` filter (line 184), and per task inside
`processBlock` just before the fused query runs (line 309).  The model gives
each task one Boolean oracle per call site.

`slices.DeleteFunc` (golang.org/x/exp/slices) compacts the kept elements to
the front of the backing array in place and returns a shortened slice; the
`tasksByDay` map entry keeps the original slice header (original length) over
the mutated backing array.  The close loop (lines 241-246) iterates the map
entries, so it sees the compacted kept elements followed by the untouched
tail of the original list.  `deleteFuncStale` models that aliased view.
-/

set_option autoImplicit false

namespace BloomGateway

/-!
Stream fingerprints (`model.Fingerprint`), calendar days (at day
granularity, as a day index) and task identities (`task.ID`) are all
modelled as plain naturals (`Nat`).
-/

/-- Errors observable in the worker iteration.  `canceled` is the value of
`ctx.Err()` of a cancelled task context (`context.Canceled`); `stopped` is
`queue.ErrStopped`; `noOverlap` is the error built at worker.go line 281;
the remaining constructors stand for distinct opaque errors produced by the
store, the block schema read, or the fused query run. -/
inductive GwError where
  | canceled
  | stopped
  | store (code : Nat)
  | schemaFail (code : Nat)
  | runFail (code : Nat)
  | noOverlap (minFp maxFp : Nat)
  | other (code : Nat)
deriving DecidableEq, Repr

/-- An `v1.Output`: a fingerprint together with the chunk removals for it.
Removals are modelled as a list of chunk indices (`nil` on pass-through). -/
structure Output where
  fp : Nat
  removals : List Nat
deriving DecidableEq, Repr

/-- A `bloomshipper.BlockRef` as used by the worker: only the fingerprint
bounds are consulted (worker.go line 277). -/
structure BlockRef where
  minFp : Nat
  maxFp : Nat
deriving DecidableEq, Repr

/-- A `Task` as the worker observes it.  `fromDay`/`throughDay` are the day
bounds returned by `task.Bounds()` (modelled from the spec: bounds are
`[fromDay, throughDay)` at day granularity).  `refs` is the ordered list of
fingerprints of `task.Request.Refs`.  The three `cancelled*` fields are the
oracles for the task's cancellation token at the three observation sites. -/
structure Task where
  id : Nat
  tenant : String
  fromDay : Nat
  throughDay : Nat
  refs : List Nat
  cancelledAtDequeue : Bool
  cancelledAtDay : Nat → Bool
  cancelledAtBlock : Nat → Nat → Nat → Bool

/-- An item handed back by `queue.DequeueMany`: `nil`, a value that is not a
`Task` (failed type assertion), or a `Task`. -/
inductive QItem where
  | nil
  | notTask
  | task (t : Task)

/-- Observable events of one worker iteration, in program order. -/
inductive Event where
  | out (id : Nat) (o : Output)
  | errSend (id : Nat) (e : GwError)
  | close (id : Nat)
  | release
  | dequeueErrorInc
  | getBlockRefsCall (tenant : String) (d : Nat)
  | fetchCall (tenant : String) (d : Nat) (refs : List BlockRef)
  | partitionRes (d : Nat) (groups : List (BlockRef × List Nat))
deriving DecidableEq, Repr

/-- Outcome of one iteration of the running loop: continue with the next
iteration, or one of the three `return` exits inside the `default:` branch. -/
inductive Outcome where
  | next
  | exitStopped
  | exitNilItem
  | exitCastFail
deriving DecidableEq, Repr

/-- A block as delivered by `bloomshipper.Fetch` to the per-block callback:
its fingerprint bounds, the result of `blockQuerier.Schema()` (ngram length
or error), and the behaviour of `fq.Run()` — on success the per-task outputs
the fused query writes directly to the tasks' result channels. -/
structure FetchedBlock where
  minFp : Nat
  maxFp : Nat
  schema : Except GwError Nat
  run : List Task → Except GwError (List (Nat × Output))

/-- The external store (`bloomshipper.Interface`) as the worker consumes it:
`getBlockRefs tenant day` is the result of `GetBlockRefs` for that tenant and
day window, and `fetch tenant day refs` is the result of `Fetch` — either a
store error or the list of fetched blocks for which the callback is invoked,
in invocation order. -/
structure Shipper where
  getBlockRefs : String → Nat → Except GwError (List BlockRef)
  fetch : String → Nat → List BlockRef → Except GwError (List FetchedBlock)

/-- `boundedTasks` pairs one block ref with the tasks (ref-restricted) that
must be queried against it. -/
structure boundedTasks where
  blockRef : BlockRef
  tasks : List Task

/-- Restriction of a task to the fingerprint refs inside a block's bounds.
Modelled from the spec: the fingerprint partitioner hands each group "only
the overlapping subset of its refs". -/
def filterRefs (br : BlockRef) (t : Task) : Task :=
  { t with refs := t.refs.filter (fun fp => br.minFp ≤ fp && fp ≤ br.maxFp) }

/-- Modelled from the spec: `partitionFingerprintRange` (referenced at
worker.go line 225 but defined outside this file's sources) builds one group
per block ref holding the subset of tasks whose fingerprint refs overlap the
block's `[minFp, maxFp]`, each task restricted to its overlapping refs;
block refs with no overlapping tasks are dropped. -/
def partitionFingerprintRange (tasks : List Task) (blockRefs : List BlockRef) :
    List boundedTasks :=
  (blockRefs.map (fun br =>
    { blockRef := br
      tasks := (tasks.map (filterRefs br)).filter (fun t => !t.refs.isEmpty) }))
  |>.filter (fun bt => !bt.tasks.isEmpty)

/-- `worker.processBlock` (worker.go lines 285-330): read the schema, then
check the iteration context and every task's cancellation token, then run the
fused query.  Returns the events produced on success (the outputs the query
writes), or the error returned to the fetch callback. -/
def processBlock (ctxErr : Option GwError) (d : Nat) (blk : FetchedBlock)
    (tasks : List Task) : Except GwError (List Event) :=
  match blk.schema with
  | Except.error e => Except.error e
  | Except.ok _ =>
    match ctxErr with
    | some e => Except.error e
    | none =>
      if tasks.any (fun t => t.cancelledAtBlock d blk.minFp blk.maxFp) then
        Except.error GwError.canceled
      else
        match blk.run tasks with
        | Except.error e => Except.error e
        | Except.ok writes => Except.ok (writes.map (fun w => Event.out w.1 w.2))

/-- The callback passed to `shipper.Fetch` (worker.go lines 270-282): find
the first partitioned group whose block ref bounds equal the fetched block's
bounds and process it; if none matches, fail with the no-overlap error. -/
def fetchCallback (ctxErr : Option GwError) (d : Nat) (pts : List boundedTasks)
    (blk : FetchedBlock) : Except GwError (List Event) :=
  match pts.find? (fun pt =>
      pt.blockRef.minFp == blk.minFp && pt.blockRef.maxFp == blk.maxFp) with
  | some pt => processBlock ctxErr d blk pt.tasks
  | none => Except.error (GwError.noOverlap blk.minFp blk.maxFp)

/-- Invocation of the fetch callback once per fetched block, in order,
stopping at the first error (which `Fetch` propagates).  Events of callbacks
that succeeded before the failing one have already been written to the
tasks' channels and are kept. -/
def runCallbacks (ctxErr : Option GwError) (d : Nat) (pts : List boundedTasks) :
    List FetchedBlock → List Event × Option GwError
  | [] => ([], none)
  | blk :: rest =>
    match fetchCallback ctxErr d pts blk with
    | Except.error e => ([], some e)
    | Except.ok evs =>
      (evs ++ (runCallbacks ctxErr d pts rest).1, (runCallbacks ctxErr d pts rest).2)

/-- `worker.processBlocksWithCallback` (worker.go lines 260-283): collect the
block refs of the partitioned groups and fetch them, driving the callback. -/
def processBlocksWithCallback (env : Shipper) (ctxErr : Option GwError)
    (tenant : String) (d : Nat) (pts : List boundedTasks) :
    List Event × Option GwError :=
  match env.fetch tenant d (pts.map (fun pt => pt.blockRef)) with
  | Except.error e => ([], some e)
  | Except.ok blocks => runCallbacks ctxErr d pts blocks

/-- The day loop body after the cancellation filter (worker.go lines
194-237), operating on the surviving tasks `tasks` with `tenant` the tenant
of the first surviving task (`tasks[0].Tenant`, used for both store calls):
resolve block refs, handle the store-error and no-blocks cases, otherwise
partition and drive the block query; any error is broadcast to every
surviving task's error channel. -/
def processDayTasks (env : Shipper) (ctxErr : Option GwError) (d : Nat)
    (tenant : String) (tasks : List Task) : List Event :=
  Event.getBlockRefsCall tenant d ::
  match env.getBlockRefs tenant d with
  | Except.error e => tasks.map (fun t => Event.errSend t.id e)
  | Except.ok blockRefs =>
    if blockRefs.isEmpty then
      tasks.flatMap (fun t => t.refs.map (fun fp => Event.out t.id ⟨fp, []⟩))
    else
      Event.partitionRes d ((partitionFingerprintRange tasks blockRefs).map
        (fun pt => (pt.blockRef, pt.tasks.map Task.id))) ::
      Event.fetchCall tenant d ((partitionFingerprintRange tasks blockRefs).map
        (fun pt => pt.blockRef)) ::
      (match (processBlocksWithCallback env ctxErr tenant d
          (partitionFingerprintRange tasks blockRefs)).2 with
       | none => (processBlocksWithCallback env ctxErr tenant d
          (partitionFingerprintRange tasks blockRefs)).1
       | some e => (processBlocksWithCallback env ctxErr tenant d
          (partitionFingerprintRange tasks blockRefs)).1
          ++ tasks.map (fun t => Event.errSend t.id e))

/-- One round of the day loop body (worker.go lines 176-238) for day `d` with
original bucket `bucket`: remove the tasks already cancelled
(`slices.DeleteFunc`, line 184), skip the day if none remain, else process
the survivors with the tenant of the first surviving task. -/
def processDay (env : Shipper) (ctxErr : Option GwError) (d : Nat)
    (bucket : List Task) : List Event :=
  match bucket.filter (fun t => !t.cancelledAtDay d) with
  | [] => []
  | t0 :: rest => processDayTasks env ctxErr d t0.tenant (t0 :: rest)

/-- The list of day buckets a task is appended to (worker.go lines 164-173):
the single bucket `fromDay` when the bounds are equal, else every day from
`fromDay` (inclusive) to `throughDay` (exclusive), stepped one day at a
time. -/
def taskDays (t : Task) : List Nat :=
  if t.fromDay = t.throughDay then [t.fromDay]
  else (List.range (t.throughDay - t.fromDay)).map (fun i => t.fromDay + i)

/-- Append of one task to the bucket of day `d`, preserving first-insertion
order of days (model of `tasksByDay[d] = append(tasksByDay[d], task)`). -/
def addToBucket : List (Nat × List Task) → Nat → Task → List (Nat × List Task)
  | [], d, t => [(d, [t])]
  | (d', ts) :: rest, d, t =>
    if d' = d then (d', ts ++ [t]) :: rest
    else (d', ts) :: addToBucket rest d t

/-- The bucketing phase over the dequeued items (worker.go lines 142-174):
a `nil` item or a failed type assertion releases the batch and exits the
loop; a task cancelled while waiting in the queue is closed and skipped;
every other task is appended to each of its day buckets. -/
def phaseA (items : List QItem) (acc : List (Nat × List Task)) :
    List Event × List (Nat × List Task) × Option Outcome :=
  match items with
  | [] => ([], acc, none)
  | QItem.nil :: _ => ([Event.release], acc, some Outcome.exitNilItem)
  | QItem.notTask :: _ => ([Event.release], acc, some Outcome.exitCastFail)
  | QItem.task t :: rest =>
    if t.cancelledAtDequeue then
      (Event.close t.id :: (phaseA rest acc).1, (phaseA rest acc).2)
    else
      phaseA rest ((taskDays t).foldl (fun m dd => addToBucket m dd t) acc)

/-- The view of a day's bucket that the close loop observes through the stale
`tasksByDay` map entry after `slices.DeleteFunc` ran on it: the kept tasks
compacted at the front of the backing array, followed by the untouched tail
of the original bucket (original length preserved). -/
def deleteFuncStale (d : Nat) (bucket : List Task) : List Task :=
  let kept := bucket.filter (fun t => !t.cancelledAtDay d)
  kept ++ bucket.drop kept.length

/-- The stale `tasksByDay` map as the close loop (worker.go lines 241-246)
iterates it, after the day loop mutated every bucket's backing array. -/
def staleBuckets (m : List (Nat × List Task)) : List (Nat × List Task) :=
  m.map (fun p => (p.1, deleteFuncStale p.1 p.2))

/-- Events of the day loop (worker.go lines 176-238) over the buckets of the
`tasksByDay` map, in (first-insertion) iteration order. -/
def dayEvents (env : Shipper) (ctxErr : Option GwError)
    (m : List (Nat × List Task)) : List Event :=
  (m.map (fun p => processDay env ctxErr p.1 p.2)).flatten

/-- Events of the close loop (worker.go lines 241-246), iterating the stale
`tasksByDay` map entries and calling `Close` on every task found there. -/
def closeEvents (m : List (Nat × List Task)) : List Event :=
  ((staleBuckets m).map (fun p => p.2.map (fun t => Event.close t.id))).flatten

/-- The iteration body after the dequeue-error policy was applied
(worker.go lines 134-249): release and continue on an empty batch; otherwise
bucket the items (with possible early exits), process every day bucket,
close every task reachable through the (stale) map, and release the batch. -/
def iterAfterDequeue (env : Shipper) (ctxErr : Option GwError)
    (items : List QItem) (pre : List Event) : List Event × Outcome :=
  if items.isEmpty then (pre ++ [Event.release], Outcome.next)
  else
    match (phaseA items []).2.2 with
    | some o => (pre ++ (phaseA items []).1, o)
    | none =>
      (pre ++ (phaseA items []).1 ++ dayEvents env ctxErr (phaseA items []).2.1
        ++ closeEvents (phaseA items []).2.1 ++ [Event.release], Outcome.next)

/-- One full iteration of the `default:` branch of `worker.running`
(worker.go lines 118-250), given the result of `DequeueMany`: the dequeue
error is fatal exactly when it is `queue.ErrStopped` and zero items were
returned (no release happens on that path); any other dequeue error counts
one dequeue-error metric increment and the iteration continues with the
returned items.  The iteration context is `context.Background()`
(worker.go line 119), so the shared context error observed inside
`processBlock` is `none`. -/
def runIteration (env : Shipper) (items : List QItem) (dqErr : Option GwError) :
    List Event × Outcome :=
  match dqErr with
  | some e =>
    if e = GwError.stopped ∧ items.isEmpty then ([], Outcome.exitStopped)
    else iterAfterDequeue env none items [Event.dequeueErrorInc]
  | none => iterAfterDequeue env none items []

/-! ### Trace observation helpers -/

/-- Is this event a `Close` call on task `id`? -/
def isCloseOf (id : Nat) : Event → Bool
  | Event.close i => i == id
  | _ => false

/-- Number of `Close` calls on task `id` in a trace.  `Task.Close` is
idempotent (the closed flag is monotonic), so the task is closed exactly once
iff this count is positive. -/
def closeCount (tr : List Event) (id : Nat) : Nat := tr.countP (isCloseOf id)

/-- Is this event an output sent to task `id`'s result channel? -/
def isOutOf (id : Nat) : Event → Bool
  | Event.out i _ => i == id
  | _ => false

/-- Number of outputs sent to task `id`'s result channel in a trace. -/
def outCount (tr : List Event) (id : Nat) : Nat := tr.countP (isOutOf id)

/-- Is this event an error sent to task `id`'s error channel? -/
def isErrOf (id : Nat) : Event → Bool
  | Event.errSend i _ => i == id
  | _ => false

/-- Number of errors sent to task `id`'s error channel in a trace. -/
def errCount (tr : List Event) (id : Nat) : Nat := tr.countP (isErrOf id)

/-- The errors sent to task `id`'s error channel, in order. -/
def errsTo (tr : List Event) (id : Nat) : List GwError :=
  tr.filterMap (fun e => match e with
    | Event.errSend i x => if i == id then some x else none
    | _ => none)

/-- Is this event a `ReleaseRequests` call? -/
def isRelease : Event → Bool
  | Event.release => true
  | _ => false

/-- Number of `ReleaseRequests` calls in a trace. -/
def releaseCount (tr : List Event) : Nat := tr.countP isRelease

/-- A task id occurs in one of the partitioned-task groups recorded in the
trace. -/
def inSomePartition (tr : List Event) (id : Nat) : Bool :=
  tr.any (fun e => match e with
    | Event.partitionRes _ groups => groups.any (fun g => g.2.contains id)
    | _ => false)

/-- A task that never observes a set cancellation token at any site. -/
def Task.neverCancelled (t : Task) : Prop :=
  t.cancelledAtDequeue = false ∧ (∀ d, t.cancelledAtDay d = false) ∧
    ∀ d lo hi, t.cancelledAtBlock d lo hi = false

/-- Helper to build a concrete task with all cancellation oracles unset. -/
def mkTask (id : Nat) (tenant : String) (f th : Nat) (refs : List Nat) : Task :=
  { id := id, tenant := tenant, fromDay := f, throughDay := th, refs := refs,
    cancelledAtDequeue := false, cancelledAtDay := fun _ => false,
    cancelledAtBlock := fun _ _ _ => false }

/-- Well-formedness of the store environment: the fused query engine of every
fetched block writes outputs only to the result channels embedded in the
request stream it was handed, i.e. only to tasks of its group. -/
def EnvWF (env : Shipper) : Prop :=
  ∀ s d refs blocks, env.fetch s d refs = Except.ok blocks →
    ∀ blk ∈ blocks, ∀ ts ws, blk.run ts = Except.ok ws →
      ∀ w ∈ ws, w.1 ∈ ts.map Task.id

/-- The task value `t` is a member of day `d`'s bucket in the `tasksByDay`
map `m`. -/
def TaskInBucket (m : List (Nat × List Task)) (d : Nat) (t : Task) : Prop :=
  ∃ p ∈ m, p.1 = d ∧ t ∈ p.2

/-! ### Shape lemmas for the block query driver -/

lemma processBlock_ok_run {c : Option GwError} {d : Nat} {blk : FetchedBlock}
    {ts : List Task} {evs : List Event}
    (h : processBlock c d blk ts = Except.ok evs) :
    ∃ ws, blk.run ts = Except.ok ws ∧
      evs = ws.map (fun w => Event.out w.1 w.2) := by
  unfold processBlock at h
  split at h
  · exact absurd h (by simp)
  · split at h
    · exact absurd h (by simp)
    · split at h
      · exact absurd h (by simp)
      · split at h
        · exact absurd h (by simp)
        · rename_i ws hws
          simp only [Except.ok.injEq] at h
          exact ⟨ws, hws, h.symm⟩

lemma runCallbacks_events {c : Option GwError} {d : Nat}
    {pts : List boundedTasks} {blocks : List FetchedBlock} {e : Event}
    (h : e ∈ (runCallbacks c d pts blocks).1) :
    ∃ blk ∈ blocks, ∃ pt, pts.find? (fun pt =>
        pt.blockRef.minFp == blk.minFp && pt.blockRef.maxFp == blk.maxFp) =
          some pt ∧
      ∃ evs, processBlock c d blk pt.tasks = Except.ok evs ∧ e ∈ evs := by
  induction blocks with
  | nil => simp [runCallbacks] at h
  | cons blk rest ih =>
    rw [runCallbacks] at h
    rcases hfc : fetchCallback c d pts blk with e' | evs <;> rw [hfc] at h
    · simp at h
    · simp only [List.mem_append] at h
      rcases h with h | h
      · unfold fetchCallback at hfc
        split at hfc
        · rename_i pt hpt
          exact ⟨blk, List.mem_cons_self .., pt, hpt, evs, hfc, h⟩
        · exact absurd hfc (by simp)
      · obtain ⟨blk', hblk', rest'⟩ := ih h
        exact ⟨blk', List.mem_cons_of_mem _ hblk', rest'⟩

lemma runCallbacks_out {c : Option GwError} {d : Nat}
    {pts : List boundedTasks} {blocks : List FetchedBlock} {e : Event}
    (h : e ∈ (runCallbacks c d pts blocks).1) :
    ∃ i o, e = Event.out i o := by
  obtain ⟨blk, -, pt, -, evs, hok, he⟩ := runCallbacks_events h
  obtain ⟨ws, -, rfl⟩ := processBlock_ok_run hok
  obtain ⟨w, -, rfl⟩ := List.mem_map.mp he
  exact ⟨w.1, w.2, rfl⟩

lemma pbwc_events {env : Shipper} {c : Option GwError} {tenant : String}
    {d : Nat} {pts : List boundedTasks} {e : Event}
    (h : e ∈ (processBlocksWithCallback env c tenant d pts).1) :
    ∃ blocks, env.fetch tenant d (pts.map (fun pt => pt.blockRef)) =
        Except.ok blocks ∧ e ∈ (runCallbacks c d pts blocks).1 := by
  unfold processBlocksWithCallback at h
  split at h
  · simp at h
  · rename_i blocks hblocks
    exact ⟨blocks, hblocks, h⟩

lemma pbwc_out {env : Shipper} {c : Option GwError} {tenant : String}
    {d : Nat} {pts : List boundedTasks} {e : Event}
    (h : e ∈ (processBlocksWithCallback env c tenant d pts).1) :
    ∃ i o, e = Event.out i o := by
  obtain ⟨blocks, -, h⟩ := pbwc_events h
  exact runCallbacks_out h

/-- Every task placed in a partitioned group carries the id of one of the
partitioned tasks (ref restriction preserves identity). -/
lemma mem_partition_tasks {tasks : List Task} {refs : List BlockRef}
    {pt : boundedTasks} (hpt : pt ∈ partitionFingerprintRange tasks refs)
    {u : Task} (hu : u ∈ pt.tasks) :
    ∃ t ∈ tasks, u.id = t.id := by
  unfold partitionFingerprintRange at hpt
  rw [List.mem_filter] at hpt
  obtain ⟨hpt, -⟩ := hpt
  rw [List.mem_map] at hpt
  obtain ⟨br, -, rfl⟩ := hpt
  simp only [List.mem_filter, List.mem_map] at hu
  obtain ⟨⟨t, ht, rfl⟩, -⟩ := hu
  exact ⟨t, ht, rfl⟩

/-- Case analysis on the events a day's survivor processing can produce. -/
lemma processDayTasks_events {env : Shipper} {c : Option GwError} {d : Nat}
    {tenant : String} {tasks : List Task} {e : Event}
    (h : e ∈ processDayTasks env c d tenant tasks) :
    e = Event.getBlockRefsCall tenant d
    ∨ (∃ t ∈ tasks, ∃ er, e = Event.errSend t.id er)
    ∨ (∃ t ∈ tasks, ∃ o, e = Event.out t.id o)
    ∨ (∃ refs, env.getBlockRefs tenant d = Except.ok refs ∧
        e ∈ (processBlocksWithCallback env c tenant d
          (partitionFingerprintRange tasks refs)).1)
    ∨ (∃ g, e = Event.partitionRes d g ∧
        g = (partitionFingerprintRange tasks
            ((env.getBlockRefs tenant d).toOption.getD [])).map
          (fun pt => (pt.blockRef, pt.tasks.map Task.id)))
    ∨ (∃ rs, e = Event.fetchCall tenant d rs) := by
  unfold processDayTasks at h
  rw [List.mem_cons] at h
  rcases h with rfl | h
  · exact Or.inl rfl
  split at h
  · rename_i er herr
    obtain ⟨t, ht, rfl⟩ := List.mem_map.mp h
    exact Or.inr (Or.inl ⟨t, ht, er, rfl⟩)
  · rename_i blockRefs hok
    split at h
    · obtain ⟨t, ht, hin⟩ := List.mem_flatMap.mp h
      obtain ⟨fp, -, rfl⟩ := List.mem_map.mp hin
      exact Or.inr (Or.inr (Or.inl ⟨t, ht, _, rfl⟩))
    · rw [List.mem_cons] at h
      rcases h with rfl | h
      · refine Or.inr (Or.inr (Or.inr (Or.inr (Or.inl ⟨_, rfl, ?_⟩))))
        rw [hok]
        rfl
      rw [List.mem_cons] at h
      rcases h with rfl | h
      · exact Or.inr (Or.inr (Or.inr (Or.inr (Or.inr ⟨_, rfl⟩))))
      split at h
      · exact Or.inr (Or.inr (Or.inr (Or.inl ⟨blockRefs, hok, h⟩)))
      · rename_i er hsome
        rw [List.mem_append] at h
        rcases h with h | h
        · exact Or.inr (Or.inr (Or.inr (Or.inl ⟨blockRefs, hok, h⟩)))
        · obtain ⟨t, ht, rfl⟩ := List.mem_map.mp h
          exact Or.inr (Or.inl ⟨t, ht, er, rfl⟩)

/-- The day loop body never calls `Close` and never releases the batch. -/
lemma processDay_not_close_release {env : Shipper} {c : Option GwError}
    {d : Nat} {bucket : List Task} {e : Event}
    (h : e ∈ processDay env c d bucket) :
    (∀ i, isCloseOf i e = false) ∧ isRelease e = false := by
  unfold processDay at h
  split at h
  · simp at h
  · rcases processDayTasks_events h with rfl | ⟨t, -, er, rfl⟩ | ⟨t, -, o, rfl⟩ |
      ⟨refs, -, h⟩ | ⟨g, rfl, -⟩ | ⟨rs, rfl⟩
    · exact ⟨fun i => rfl, rfl⟩
    · exact ⟨fun i => rfl, rfl⟩
    · exact ⟨fun i => rfl, rfl⟩
    · obtain ⟨i, o, rfl⟩ := pbwc_out h
      exact ⟨fun i => rfl, rfl⟩
    · exact ⟨fun i => rfl, rfl⟩
    · exact ⟨fun i => rfl, rfl⟩

lemma closeCount_processDay (env : Shipper) (c : Option GwError) (d : Nat)
    (bucket : List Task) (i : Nat) :
    closeCount (processDay env c d bucket) i = 0 := by
  rw [closeCount, List.countP_eq_zero]
  intro e he
  exact Bool.not_eq_true _ ▸ (by simp [(processDay_not_close_release he).1 i])

lemma releaseCount_processDay (env : Shipper) (c : Option GwError) (d : Nat)
    (bucket : List Task) :
    releaseCount (processDay env c d bucket) = 0 := by
  rw [releaseCount, List.countP_eq_zero]
  intro e he
  simp [(processDay_not_close_release he).2]

/-! ### Lemmas about the bucketing phase -/

/-- For a task with a nonempty day interval, the bucketing loop visits
exactly the days from `fromDay` (inclusive) to `throughDay` (exclusive). -/
lemma taskDays_mem {t : Task} (hlt : t.fromDay < t.throughDay) (d : Nat) :
    d ∈ taskDays t ↔ t.fromDay ≤ d ∧ d < t.throughDay := by
  unfold taskDays
  rw [if_neg (Nat.ne_of_lt hlt)]
  constructor
  · intro h
    obtain ⟨i, hi, hd⟩ := List.mem_map.mp h
    rw [List.mem_range] at hi
    subst hd
    omega
  · intro h
    refine List.mem_map.mpr ⟨d - t.fromDay, ?_, ?_⟩
    · rw [List.mem_range]
      omega
    · omega

lemma TaskInBucket_cons {q : Nat × List Task} {m : List (Nat × List Task)}
    {d : Nat} {t : Task} :
    TaskInBucket (q :: m) d t ↔ (q.1 = d ∧ t ∈ q.2) ∨ TaskInBucket m d t := by
  unfold TaskInBucket
  constructor
  · rintro ⟨p, hp, hcond⟩
    rcases List.mem_cons.mp hp with rfl | hp
    · exact Or.inl hcond
    · exact Or.inr ⟨p, hp, hcond⟩
  · rintro (h | ⟨p, hp, hcond⟩)
    · exact ⟨q, List.mem_cons_self .., h⟩
    · exact ⟨p, List.mem_cons_of_mem _ hp, hcond⟩

lemma TaskInBucket_addToBucket {m : List (Nat × List Task)} {d' d : Nat}
    {u t : Task} :
    TaskInBucket (addToBucket m d' u) d t ↔
      TaskInBucket m d t ∨ (d' = d ∧ u = t) := by
  induction m with
  | nil =>
    rw [addToBucket, TaskInBucket_cons]
    simp only [TaskInBucket, List.not_mem_nil, false_and, exists_false,
      List.mem_singleton]
    tauto
  | cons q rest ih =>
    rcases q with ⟨pd, ts⟩
    rw [addToBucket]
    split
    · rename_i hpd
      rw [TaskInBucket_cons, TaskInBucket_cons]
      simp only [List.mem_append, List.mem_singleton]
      subst hpd
      tauto
    · rw [TaskInBucket_cons, TaskInBucket_cons, ih]
      tauto

lemma TaskInBucket_foldl {ds : List Nat} {m : List (Nat × List Task)}
    {u t : Task} {d : Nat} :
    TaskInBucket (ds.foldl (fun acc dd => addToBucket acc dd u) m) d t ↔
      TaskInBucket m d t ∨ (d ∈ ds ∧ u = t) := by
  induction ds generalizing m with
  | nil => simp
  | cons dd ds ih =>
    rw [List.foldl_cons, ih, TaskInBucket_addToBucket]
    simp only [List.mem_cons]
    tauto

/-- Membership in the `tasksByDay` buckets built by the bucketing phase, for
batches of well-typed items: a task value sits in day `d`'s bucket iff it
was dequeued, was not cancelled at the dequeue check, and spans `d`. -/
lemma phaseA_buckets {items : List QItem} {acc : List (Nat × List Task)}
    {d : Nat} {t : Task}
    (hall : ∀ i ∈ items, ∃ u, i = QItem.task u) :
    TaskInBucket (phaseA items acc).2.1 d t ↔
      TaskInBucket acc d t ∨
        (QItem.task t ∈ items ∧ t.cancelledAtDequeue = false ∧ d ∈ taskDays t) := by
  induction items generalizing acc with
  | nil => simp [phaseA]
  | cons i rest ih =>
    obtain ⟨u, rfl⟩ := hall i (List.mem_cons_self ..)
    rw [phaseA]
    split
    · rename_i hc
      rw [ih (fun j hj => hall j (List.mem_cons_of_mem _ hj))]
      simp only [List.mem_cons]
      constructor
      · rintro (h | ⟨h1, h2, h3⟩)
        · exact Or.inl h
        · exact Or.inr ⟨Or.inr h1, h2, h3⟩
      · rintro (h | ⟨heq | h1, h2, h3⟩)
        · exact Or.inl h
        · cases heq
          rw [hc] at h2
          cases h2
        · exact Or.inr ⟨h1, h2, h3⟩
    · rename_i hc
      rw [ih (fun j hj => hall j (List.mem_cons_of_mem _ hj)),
        TaskInBucket_foldl]
      simp only [List.mem_cons]
      constructor
      · rintro ((h | ⟨hd, rfl⟩) | ⟨h1, h2, h3⟩)
        · exact Or.inl h
        · exact Or.inr ⟨Or.inl rfl, Bool.eq_false_iff.mpr hc, hd⟩
        · exact Or.inr ⟨Or.inr h1, h2, h3⟩
      · rintro (h | ⟨heq | h1, h2, h3⟩)
        · exact Or.inl (Or.inl h)
        · cases heq
          exact Or.inl (Or.inr ⟨h3, rfl⟩)
        · exact Or.inr ⟨h1, h2, h3⟩

/-- Every `Close` call of the bucketing phase is on a task that was dequeued
with its cancellation token already set. -/
lemma close_mem_phaseA {items : List QItem} {acc : List (Nat × List Task)}
    {i : Nat} (h : Event.close i ∈ (phaseA items acc).1) :
    ∃ u, QItem.task u ∈ items ∧ u.cancelledAtDequeue = true ∧ u.id = i := by
  induction items generalizing acc with
  | nil => simp [phaseA] at h
  | cons it rest ih =>
    cases it with
    | nil =>
      rw [phaseA] at h
      simp at h
    | notTask =>
      rw [phaseA] at h
      simp at h
    | task u =>
      rw [phaseA] at h
      split at h
      · rename_i hc
        rcases List.mem_cons.mp h with heq | h
        · exact ⟨u, List.mem_cons_self .., hc, (Event.close.inj heq).symm⟩
        · obtain ⟨u', hm, hcc, hid⟩ := ih h
          exact ⟨u', List.mem_cons_of_mem _ hm, hcc, hid⟩
      · obtain ⟨u', hm, hcc, hid⟩ := ih h
        exact ⟨u', List.mem_cons_of_mem _ hm, hcc, hid⟩

/-- A dequeued task whose cancellation token is set at the dequeue check is
closed by the bucketing phase (when no earlier invalid item aborts it). -/
lemma closeCount_phaseA_pos {items : List QItem} {acc : List (Nat × List Task)}
    {t : Task} (hall : ∀ i ∈ items, ∃ u, i = QItem.task u)
    (hmem : QItem.task t ∈ items) (hc : t.cancelledAtDequeue = true) :
    1 ≤ closeCount (phaseA items acc).1 t.id := by
  induction items generalizing acc with
  | nil => cases hmem
  | cons it rest ih =>
    obtain ⟨u, rfl⟩ := hall it (List.mem_cons_self ..)
    rcases List.mem_cons.mp hmem with heq | hmem
    · cases heq
      rw [phaseA, if_pos hc]
      rw [closeCount, List.countP_cons]
      have hcl : isCloseOf t.id (Event.close t.id) = true := by
        simp [isCloseOf]
      rw [hcl, if_pos rfl]
      exact Nat.le_add_left 1 _
    · rw [phaseA]
      split
      · rw [closeCount, List.countP_cons]
        exact le_trans
          (ih (fun j hj => hall j (List.mem_cons_of_mem _ hj)) hmem)
          (Nat.le_add_right _ _)
      · exact ih (fun j hj => hall j (List.mem_cons_of_mem _ hj)) hmem

lemma phaseA_exit_cases {items : List QItem} {acc : List (Nat × List Task)}
    {o : Outcome} (h : (phaseA items acc).2.2 = some o) :
    o = Outcome.exitNilItem ∨ o = Outcome.exitCastFail := by
  induction items generalizing acc with
  | nil => simp [phaseA] at h
  | cons it rest ih =>
    cases it with
    | nil =>
      simp only [phaseA, Option.some.injEq] at h
      exact Or.inl h.symm
    | notTask =>
      simp only [phaseA, Option.some.injEq] at h
      exact Or.inr h.symm
    | task u =>
      rw [phaseA] at h
      split at h
      · exact ih h
      · exact ih h

lemma phaseA_none {items : List QItem} {acc : List (Nat × List Task)}
    (hall : ∀ i ∈ items, ∃ u, i = QItem.task u) :
    (phaseA items acc).2.2 = none := by
  induction items generalizing acc with
  | nil => rfl
  | cons it rest ih =>
    obtain ⟨u, rfl⟩ := hall it (List.mem_cons_self ..)
    rw [phaseA]
    split
    · exact ih (fun j hj => hall j (List.mem_cons_of_mem _ hj))
    · exact ih (fun j hj => hall j (List.mem_cons_of_mem _ hj))

/-- The bucketing phase releases the batch iff it aborts the iteration. -/
lemma releaseCount_phaseA {items : List QItem} {acc : List (Nat × List Task)} :
    releaseCount (phaseA items acc).1 =
      if (phaseA items acc).2.2.isSome then 1 else 0 := by
  induction items generalizing acc with
  | nil => rfl
  | cons it rest ih =>
    cases it with
    | nil => rfl
    | notTask => rfl
    | task u =>
      rw [phaseA]
      split
      · rw [releaseCount, List.countP_cons]
        have : isRelease (Event.close u.id) = false := rfl
        rw [this]
        exact ih
      · exact ih

/-! ### Lemmas about the close loop and the iteration assembly -/

lemma mem_deleteFuncStale_of_kept {d : Nat} {bucket : List Task} {t : Task}
    (ht : t ∈ bucket) (hnc : t.cancelledAtDay d = false) :
    t ∈ deleteFuncStale d bucket := by
  unfold deleteFuncStale
  exact List.mem_append_left _ (List.mem_filter.mpr ⟨ht, by simp [hnc]⟩)

lemma mem_deleteFuncStale_sub {d : Nat} {bucket : List Task} {t : Task}
    (h : t ∈ deleteFuncStale d bucket) : t ∈ bucket := by
  unfold deleteFuncStale at h
  rcases List.mem_append.mp h with h | h
  · exact List.mem_of_mem_filter h
  · exact List.drop_subset _ _ h

lemma closeEvents_mem_of {m : List (Nat × List Task)} {p : Nat × List Task}
    (hp : p ∈ m) {t : Task} (ht : t ∈ p.2)
    (hnc : t.cancelledAtDay p.1 = false) :
    Event.close t.id ∈ closeEvents m := by
  unfold closeEvents staleBuckets
  rw [List.mem_flatten]
  refine ⟨(deleteFuncStale p.1 p.2).map (fun t => Event.close t.id), ?_, ?_⟩
  · rw [List.mem_map]
    exact ⟨(p.1, deleteFuncStale p.1 p.2), List.mem_map.mpr ⟨p, hp, rfl⟩, rfl⟩
  · exact List.mem_map.mpr ⟨t, mem_deleteFuncStale_of_kept ht hnc, rfl⟩

lemma closeEvents_sound {m : List (Nat × List Task)} {i : Nat}
    (h : Event.close i ∈ closeEvents m) :
    ∃ p ∈ m, ∃ t ∈ p.2, t.id = i := by
  unfold closeEvents at h
  rw [List.mem_flatten] at h
  obtain ⟨l, hl, hel⟩ := h
  obtain ⟨q, hq, rfl⟩ := List.mem_map.mp hl
  unfold staleBuckets at hq
  obtain ⟨p, hp, rfl⟩ := List.mem_map.mp hq
  obtain ⟨t, ht, hcl⟩ := List.mem_map.mp hel
  exact ⟨p, hp, t, mem_deleteFuncStale_sub ht, Event.close.inj hcl⟩

lemma closeEvents_all_close {m : List (Nat × List Task)} {e : Event}
    (h : e ∈ closeEvents m) : ∃ i, e = Event.close i := by
  unfold closeEvents at h
  rw [List.mem_flatten] at h
  obtain ⟨l, hl, hel⟩ := h
  obtain ⟨q, hq, rfl⟩ := List.mem_map.mp hl
  obtain ⟨t, ht, rfl⟩ := List.mem_map.mp hel
  exact ⟨t.id, rfl⟩

lemma releaseCount_closeEvents (m : List (Nat × List Task)) :
    releaseCount (closeEvents m) = 0 := by
  rw [releaseCount, List.countP_eq_zero]
  intro e he
  obtain ⟨i, rfl⟩ := closeEvents_all_close he
  simp [isRelease]

lemma releaseCount_dayEvents (env : Shipper) (c : Option GwError)
    (m : List (Nat × List Task)) : releaseCount (dayEvents env c m) = 0 := by
  rw [releaseCount, List.countP_eq_zero]
  intro e he
  rw [dayEvents, List.mem_flatten] at he
  obtain ⟨l, hl, hel⟩ := he
  obtain ⟨p, hp, rfl⟩ := List.mem_map.mp hl
  simp [(processDay_not_close_release hel).2]

lemma closeCount_dayEvents (env : Shipper) (c : Option GwError)
    (m : List (Nat × List Task)) (i : Nat) :
    closeCount (dayEvents env c m) i = 0 := by
  rw [closeCount, List.countP_eq_zero]
  intro e he
  rw [dayEvents, List.mem_flatten] at he
  obtain ⟨l, hl, hel⟩ := he
  obtain ⟨p, hp, rfl⟩ := List.mem_map.mp hl
  simp [(processDay_not_close_release hel).1 i]

lemma iterAfterDequeue_normal {env : Shipper} {c : Option GwError}
    {items : List QItem} {pre : List Event}
    (hne : items ≠ []) (hnone : (phaseA items []).2.2 = none) :
    iterAfterDequeue env c items pre =
      (pre ++ (phaseA items []).1 ++ dayEvents env c (phaseA items []).2.1
        ++ closeEvents (phaseA items []).2.1 ++ [Event.release],
        Outcome.next) := by
  unfold iterAfterDequeue
  rw [if_neg (by simp [hne])]
  split
  · rename_i o ho
    rw [hnone] at ho
    cases ho
  · rfl

lemma iterAfterDequeue_exit {env : Shipper} {c : Option GwError}
    {items : List QItem} {pre : List Event} {o : Outcome}
    (hne : items ≠ []) (hsome : (phaseA items []).2.2 = some o) :
    iterAfterDequeue env c items pre = (pre ++ (phaseA items []).1, o) := by
  unfold iterAfterDequeue
  rw [if_neg (by simp [hne])]
  split
  · rename_i o' ho'
    rw [hsome] at ho'
    cases ho'
    rfl
  · rename_i ho
    rw [hsome] at ho
    cases ho

lemma iterAfterDequeue_pre (env : Shipper) (c : Option GwError)
    (items : List QItem) (pre : List Event) :
    iterAfterDequeue env c items pre =
      (pre ++ (iterAfterDequeue env c items []).1,
        (iterAfterDequeue env c items []).2) := by
  unfold iterAfterDequeue
  split
  · simp
  · split
    · simp
    · simp

lemma iterAfterDequeue_not_exitStopped (env : Shipper) (c : Option GwError)
    (items : List QItem) (pre : List Event) :
    (iterAfterDequeue env c items pre).2 ≠ Outcome.exitStopped := by
  unfold iterAfterDequeue
  split
  · simp
  · split
    · rename_i o ho
      rcases phaseA_exit_cases ho with rfl | rfl <;> simp
    · simp

lemma releaseCount_iterAfterDequeue (env : Shipper) (c : Option GwError)
    (items : List QItem) (pre : List Event) (hpre : releaseCount pre = 0) :
    releaseCount (iterAfterDequeue env c items pre).1 = 1 := by
  unfold iterAfterDequeue
  split
  · rw [releaseCount, List.countP_append]
    rw [releaseCount] at hpre
    rw [hpre]
    rfl
  · split
    · rename_i o ho
      rw [releaseCount, List.countP_append]
      rw [releaseCount] at hpre
      rw [hpre]
      have h1 := @releaseCount_phaseA items []
      rw [ho] at h1
      rw [releaseCount] at h1
      rw [h1]
      rfl
    · rename_i ho
      rw [releaseCount, List.countP_append, List.countP_append,
        List.countP_append, List.countP_append]
      rw [releaseCount] at hpre
      rw [hpre]
      have h1 := @releaseCount_phaseA items []
      rw [ho] at h1
      rw [releaseCount] at h1
      rw [h1]
      have h2 := releaseCount_dayEvents env c (phaseA items []).2.1
      rw [releaseCount] at h2
      rw [h2]
      have h3 := releaseCount_closeEvents (phaseA items []).2.1
      rw [releaseCount] at h3
      rw [h3]
      rfl

/-! ### Branch lemmas for the day loop -/

lemma processDay_eq {env : Shipper} {c : Option GwError} {d : Nat}
    {bucket : List Task} {t0 : Task} {rest : List Task}
    (hsurv : bucket.filter (fun t => !t.cancelledAtDay d) = t0 :: rest) :
    processDay env c d bucket =
      processDayTasks env c d t0.tenant (t0 :: rest) := by
  unfold processDay
  rw [hsurv]

lemma processDayTasks_storeErr {env : Shipper} {c : Option GwError} {d : Nat}
    {tenant : String} {tasks : List Task} {e : GwError}
    (herr : env.getBlockRefs tenant d = Except.error e) :
    processDayTasks env c d tenant tasks =
      Event.getBlockRefsCall tenant d ::
        tasks.map (fun t => Event.errSend t.id e) := by
  unfold processDayTasks
  rw [herr]

lemma processDayTasks_noBlocks {env : Shipper} {c : Option GwError} {d : Nat}
    {tenant : String} {tasks : List Task}
    (hok : env.getBlockRefs tenant d = Except.ok []) :
    processDayTasks env c d tenant tasks =
      Event.getBlockRefsCall tenant d ::
        tasks.flatMap (fun t => t.refs.map (fun fp => Event.out t.id ⟨fp, []⟩)) := by
  unfold processDayTasks
  rw [hok]
  rfl

/-! ### Error-channel observation lemmas -/

lemma errsTo_cons_errSend (j : Nat) (x : GwError) (l : List Event) (i : Nat) :
    errsTo (Event.errSend j x :: l) i =
      if j = i then x :: errsTo l i else errsTo l i := by
  unfold errsTo
  rw [List.filterMap_cons]
  by_cases h : j = i
  · simp [h]
  · simp [h]

lemma errsTo_cons_call (s : String) (d : Nat) (l : List Event) (i : Nat) :
    errsTo (Event.getBlockRefsCall s d :: l) i = errsTo l i := rfl

lemma errsTo_map_errSend_nil {tasks : List Task} {e : GwError} {i : Nat}
    (h : ∀ t ∈ tasks, t.id ≠ i) :
    errsTo (tasks.map (fun t => Event.errSend t.id e)) i = [] := by
  induction tasks with
  | nil => rfl
  | cons t rest ih =>
    rw [List.map_cons, errsTo_cons_errSend, if_neg (h t (List.mem_cons_self ..))]
    exact ih (fun u hu => h u (List.mem_cons_of_mem _ hu))

/-- A day-wide error broadcast delivers the error exactly once to each task
of the broadcast list (given distinct task ids). -/
lemma errsTo_map_errSend {tasks : List Task} {e : GwError} {t : Task}
    (hnd : (tasks.map Task.id).Nodup) (hmem : t ∈ tasks) :
    errsTo (tasks.map (fun u => Event.errSend u.id e)) t.id = [e] := by
  induction tasks with
  | nil => cases hmem
  | cons u rest ih =>
    rw [List.map_cons] at hnd
    rw [List.map_cons, errsTo_cons_errSend]
    rcases List.mem_cons.mp hmem with rfl | hmem
    · rw [if_pos rfl, errsTo_map_errSend_nil
        (fun v hv hid => (List.nodup_cons.mp hnd).1
          (List.mem_map.mpr ⟨v, hv, hid⟩))]
    · rw [if_neg (fun hequ => (List.nodup_cons.mp hnd).1
        (by rw [hequ]; exact List.mem_map.mpr ⟨t, hmem, rfl⟩))]
      exact ih (List.nodup_cons.mp hnd).2 hmem

lemma outCount_map_errSend (tasks : List Task) (e : GwError) (i : Nat) :
    outCount (tasks.map (fun t => Event.errSend t.id e)) i = 0 := by
  rw [outCount, List.countP_eq_zero]
  intro x hx
  obtain ⟨t, ht, rfl⟩ := List.mem_map.mp hx
  simp [isOutOf]

/-- A day bucket whose block-ref resolution fails sends no outputs. -/
lemma outCount_processDay_storeErr {env : Shipper} {c : Option GwError}
    {d : Nat} {bucket : List Task} {t0 : Task} {rest : List Task} {e : GwError}
    (hsurv : bucket.filter (fun t => !t.cancelledAtDay d) = t0 :: rest)
    (herr : env.getBlockRefs t0.tenant d = Except.error e) (i : Nat) :
    outCount (processDay env c d bucket) i = 0 := by
  rw [processDay_eq hsurv, processDayTasks_storeErr herr]
  rw [outCount, List.countP_cons]
  have h0 := outCount_map_errSend (t0 :: rest) e i
  rw [outCount] at h0
  rw [h0]
  rfl

/-- Every error sent during a day's processing goes to a surviving task of
that day. -/
lemma errSend_mem_processDay {env : Shipper} {c : Option GwError} {d : Nat}
    {bucket : List Task} {i : Nat} {er : GwError}
    (h : Event.errSend i er ∈ processDay env c d bucket) :
    ∃ t ∈ bucket.filter (fun t => !t.cancelledAtDay d), t.id = i := by
  unfold processDay at h
  split at h
  · simp at h
  · rename_i t0 rest hsurv
    rcases processDayTasks_events h with heq | ⟨t, ht, er', heq⟩ |
      ⟨t, ht, o, heq⟩ | ⟨refs, -, h⟩ | ⟨g, heq, -⟩ | ⟨rs, heq⟩
    · exact absurd heq (by simp)
    · rw [hsurv]
      exact ⟨t, ht, (Event.errSend.inj heq.symm).1⟩
    · exact absurd heq (by simp)
    · obtain ⟨j, o, heq⟩ := pbwc_out h
      exact absurd heq (by simp)
    · exact absurd heq (by simp)
    · exact absurd heq (by simp)

/-- Every output written during a day's processing goes to a surviving task
of that day, provided the query engines only write to their group's tasks. -/
lemma out_mem_processDay {env : Shipper} {c : Option GwError} {d : Nat}
    {bucket : List Task} {i : Nat} {o : Output} (hwf : EnvWF env)
    (h : Event.out i o ∈ processDay env c d bucket) :
    ∃ t ∈ bucket.filter (fun t => !t.cancelledAtDay d), t.id = i := by
  unfold processDay at h
  split at h
  · simp at h
  · rename_i t0 rest hsurv
    rw [hsurv]
    rcases processDayTasks_events h with heq | ⟨t, ht, er', heq⟩ |
      ⟨t, ht, o', heq⟩ | ⟨refs, hfetchok, h⟩ | ⟨g, heq, -⟩ | ⟨rs, heq⟩
    · exact absurd heq (by simp)
    · exact absurd heq (by simp)
    · exact ⟨t, ht, (Event.out.inj heq.symm).1⟩
    · obtain ⟨blocks, hfetch, h⟩ := pbwc_events h
      obtain ⟨blk, hblk, pt, hfind, evs, hok, he⟩ := runCallbacks_events h
      obtain ⟨ws, hrun, rfl⟩ := processBlock_ok_run hok
      obtain ⟨w, hw, hwe⟩ := List.mem_map.mp he
      obtain ⟨rfl, rfl⟩ : w.1 = i ∧ w.2 = o := Event.out.inj hwe
      have hids := hwf _ _ _ _ hfetch blk hblk pt.tasks ws hrun w hw
      obtain ⟨u, hu, hui⟩ := List.mem_map.mp hids
      obtain ⟨t, ht, hti⟩ :=
        mem_partition_tasks (List.mem_of_find?_eq_some hfind) hu
      exact ⟨t, ht, by rw [← hti, hui]⟩
    · exact absurd heq (by simp)
    · exact absurd heq (by simp)

/-- Every partitioned group recorded during a day's processing contains only
ids of that day's surviving tasks. -/
lemma partitionRes_mem_processDay {env : Shipper} {c : Option GwError}
    {d : Nat} {bucket : List Task} {d' : Nat} {g : List (BlockRef × List Nat)}
    (h : Event.partitionRes d' g ∈ processDay env c d bucket) :
    ∀ pr ∈ g, ∀ i ∈ pr.2,
      ∃ t ∈ bucket.filter (fun t => !t.cancelledAtDay d), t.id = i := by
  unfold processDay at h
  split at h
  · simp at h
  · rename_i t0 rest hsurv
    rw [hsurv]
    rcases processDayTasks_events h with heq | ⟨t, ht, er', heq⟩ |
      ⟨t, ht, o', heq⟩ | ⟨refs, -, h⟩ | ⟨g', heq, hg⟩ | ⟨rs, heq⟩
    · exact absurd heq (by simp)
    · exact absurd heq (by simp)
    · exact absurd heq (by simp)
    · obtain ⟨j, o, heq⟩ := pbwc_out h
      exact absurd heq (by simp)
    · obtain ⟨-, rfl⟩ := Event.partitionRes.inj heq
      subst hg
      intro pr hpr i hi
      obtain ⟨pt, hpt, rfl⟩ := List.mem_map.mp hpr
      obtain ⟨u, hu, rfl⟩ := List.mem_map.mp hi
      obtain ⟨t, ht, hti⟩ := mem_partition_tasks hpt hu
      exact ⟨t, ht, hti.symm⟩
    · exact absurd heq (by simp)

/-- Both store calls of a day's processing use the tenant of the first
surviving task. -/
lemma processDay_calls_tenant {env : Shipper} {c : Option GwError} {d : Nat}
    {bucket : List Task} {t0 : Task} {rest : List Task}
    (hsurv : bucket.filter (fun t => !t.cancelledAtDay d) = t0 :: rest) :
    (∀ s d', Event.getBlockRefsCall s d' ∈ processDay env c d bucket →
      s = t0.tenant ∧ d' = d)
    ∧ (∀ s d' rs, Event.fetchCall s d' rs ∈ processDay env c d bucket →
      s = t0.tenant ∧ d' = d) := by
  rw [processDay_eq hsurv]
  constructor
  · intro s d' h
    rcases processDayTasks_events h with heq | ⟨t, -, er', heq⟩ |
      ⟨t, -, o', heq⟩ | ⟨refs, -, h⟩ | ⟨g', heq, -⟩ | ⟨rs, heq⟩
    · obtain ⟨h1, h2⟩ := Event.getBlockRefsCall.inj heq
      exact ⟨h1, h2⟩
    · exact absurd heq (by simp)
    · exact absurd heq (by simp)
    · obtain ⟨j, o, heq⟩ := pbwc_out h
      exact absurd heq (by simp)
    · exact absurd heq (by simp)
    · exact absurd heq (by simp)
  · intro s d' rs h
    rcases processDayTasks_events h with heq | ⟨t, -, er', heq⟩ |
      ⟨t, -, o', heq⟩ | ⟨refs, -, h⟩ | ⟨g', heq, -⟩ | ⟨rs', heq⟩
    · exact absurd heq (by simp)
    · exact absurd heq (by simp)
    · exact absurd heq (by simp)
    · obtain ⟨j, o, heq⟩ := pbwc_out h
      exact absurd heq (by simp)
    · exact absurd heq (by simp)
    · obtain ⟨h1, h2, -⟩ := Event.fetchCall.inj heq
      exact ⟨h1, h2⟩

/-- Every event of the bucketing phase is a `Close` call or a release. -/
lemma phaseA_events_shape {items : List QItem} {acc : List (Nat × List Task)}
    {e : Event} (h : e ∈ (phaseA items acc).1) :
    (∃ i, e = Event.close i) ∨ e = Event.release := by
  induction items generalizing acc with
  | nil => simp [phaseA] at h
  | cons it rest ih =>
    cases it with
    | nil =>
      rw [phaseA] at h
      rcases List.mem_singleton.mp h with rfl
      exact Or.inr rfl
    | notTask =>
      rw [phaseA] at h
      rcases List.mem_singleton.mp h with rfl
      exact Or.inr rfl
    | task u =>
      rw [phaseA] at h
      split at h
      · rcases List.mem_cons.mp h with rfl | h
        · exact Or.inl ⟨u.id, rfl⟩
        · exact ih h
      · exact ih h

lemma errSend_mem_dayEvents {env : Shipper} {c : Option GwError}
    {m : List (Nat × List Task)} {i : Nat} {er : GwError}
    (h : Event.errSend i er ∈ dayEvents env c m) :
    ∃ p ∈ m, ∃ t ∈ p.2, t.id = i := by
  rw [dayEvents, List.mem_flatten] at h
  obtain ⟨l, hl, hel⟩ := h
  obtain ⟨p, hp, rfl⟩ := List.mem_map.mp hl
  obtain ⟨t, ht, hid⟩ := errSend_mem_processDay hel
  exact ⟨p, hp, t, List.mem_of_mem_filter ht, hid⟩

lemma out_mem_dayEvents {env : Shipper} {c : Option GwError}
    {m : List (Nat × List Task)} {i : Nat} {o : Output} (hwf : EnvWF env)
    (h : Event.out i o ∈ dayEvents env c m) :
    ∃ p ∈ m, ∃ t ∈ p.2, t.id = i := by
  rw [dayEvents, List.mem_flatten] at h
  obtain ⟨l, hl, hel⟩ := h
  obtain ⟨p, hp, rfl⟩ := List.mem_map.mp hl
  obtain ⟨t, ht, hid⟩ := out_mem_processDay hwf hel
  exact ⟨p, hp, t, List.mem_of_mem_filter ht, hid⟩

lemma partitionRes_mem_dayEvents {env : Shipper} {c : Option GwError}
    {m : List (Nat × List Task)} {d' : Nat} {g : List (BlockRef × List Nat)}
    (h : Event.partitionRes d' g ∈ dayEvents env c m) :
    ∀ pr ∈ g, ∀ i ∈ pr.2, ∃ p ∈ m, ∃ t ∈ p.2, t.id = i := by
  rw [dayEvents, List.mem_flatten] at h
  obtain ⟨l, hl, hel⟩ := h
  obtain ⟨p, hp, rfl⟩ := List.mem_map.mp hl
  intro pr hpr i hi
  obtain ⟨t, ht, hid⟩ := partitionRes_mem_processDay hel pr hpr i hi
  exact ⟨p, hp, t, List.mem_of_mem_filter ht, hid⟩

/-- A no-blocks day sends no errors. -/
lemma errCount_processDay_noBlocks {env : Shipper} {c : Option GwError}
    {d : Nat} {bucket : List Task} {t0 : Task} {rest : List Task}
    (hsurv : bucket.filter (fun t => !t.cancelledAtDay d) = t0 :: rest)
    (hok : env.getBlockRefs t0.tenant d = Except.ok []) (i : Nat) :
    errCount (processDay env c d bucket) i = 0 := by
  rw [processDay_eq hsurv, processDayTasks_noBlocks hok]
  rw [errCount, List.countP_eq_zero]
  intro e he
  rcases List.mem_cons.mp he with rfl | he
  · simp [isErrOf]
  · obtain ⟨t, -, he⟩ := List.mem_flatMap.mp he
    obtain ⟨fp, -, rfl⟩ := List.mem_map.mp he
    simp [isErrOf]

lemma errsTo_cons_nonErr {e : Event} (he : ∀ j x, e ≠ Event.errSend j x)
    (l : List Event) (i : Nat) : errsTo (e :: l) i = errsTo l i := by
  cases e
  case errSend j x => exact absurd rfl (he j x)
  all_goals rfl

lemma errsTo_append (a b : List Event) (i : Nat) :
    errsTo (a ++ b) i = errsTo a i ++ errsTo b i := by
  unfold errsTo
  exact List.filterMap_append ..

lemma errsTo_pbwc_nil {env : Shipper} {c : Option GwError} {tenant : String}
    {d : Nat} {pts : List boundedTasks} (i : Nat) :
    errsTo (processBlocksWithCallback env c tenant d pts).1 i = [] := by
  unfold errsTo
  rw [List.filterMap_eq_nil_iff]
  intro e he
  obtain ⟨j, o, rfl⟩ := pbwc_out he
  rfl

lemma outCount_append (a b : List Event) (i : Nat) :
    outCount (a ++ b) i = outCount a i + outCount b i := by
  unfold outCount
  exact List.countP_append ..

lemma closeCount_append (a b : List Event) (i : Nat) :
    closeCount (a ++ b) i = closeCount a i + closeCount b i := by
  unfold closeCount
  exact List.countP_append ..

lemma errCount_append (a b : List Event) (i : Nat) :
    errCount (a ++ b) i = errCount a i + errCount b i := by
  unfold errCount
  exact List.countP_append ..

/-- The day loop consults the environment only at its own day, so its events
agree between environments that agree at that day. -/
lemma processDayTasks_env_agree {env env' : Shipper} {c : Option GwError}
    {d : Nat} {tenant : String} {tasks : List Task}
    (hg : ∀ s, env.getBlockRefs s d = env'.getBlockRefs s d)
    (hf : ∀ s rs, env.fetch s d rs = env'.fetch s d rs) :
    processDayTasks env c d tenant tasks =
      processDayTasks env' c d tenant tasks := by
  have hpb : ∀ pts, processBlocksWithCallback env c tenant d pts =
      processBlocksWithCallback env' c tenant d pts := by
    intro pts
    unfold processBlocksWithCallback
    rw [hf tenant]
  unfold processDayTasks
  rw [hg tenant]
  simp only [hpb]

lemma processDay_env_agree {env env' : Shipper} {c : Option GwError} {d : Nat}
    {bucket : List Task}
    (hg : ∀ s, env.getBlockRefs s d = env'.getBlockRefs s d)
    (hf : ∀ s rs, env.fetch s d rs = env'.fetch s d rs) :
    processDay env c d bucket = processDay env' c d bucket := by
  unfold processDay
  split
  · rfl
  · exact processDayTasks_env_agree hg hf

lemma errsTo_cons_partitionRes (d' : Nat) (g : List (BlockRef × List Nat))
    (l : List Event) (i : Nat) :
    errsTo (Event.partitionRes d' g :: l) i = errsTo l i := rfl

lemma errsTo_cons_fetchCall (s : String) (d' : Nat) (rs : List BlockRef)
    (l : List Event) (i : Nat) :
    errsTo (Event.fetchCall s d' rs :: l) i = errsTo l i := rfl

/-- When block processing fails for a day, every surviving task of that
day's bucket receives exactly the propagated error, once. -/
lemma errsTo_processDay_pbwcErr {env : Shipper} {c : Option GwError} {d : Nat}
    {bucket : List Task} {t0 : Task} {rest : List Task} {refs : List BlockRef}
    {er : GwError}
    (hsurv : bucket.filter (fun t => !t.cancelledAtDay d) = t0 :: rest)
    (hnd : ((t0 :: rest).map Task.id).Nodup)
    (hok : env.getBlockRefs t0.tenant d = Except.ok refs) (hne : refs ≠ [])
    (hpb : (processBlocksWithCallback env c t0.tenant d
      (partitionFingerprintRange (t0 :: rest) refs)).2 = some er)
    {t : Task} (ht : t ∈ t0 :: rest) :
    errsTo (processDay env c d bucket) t.id = [er] := by
  rw [processDay_eq hsurv]
  unfold processDayTasks
  simp only [hok]
  rw [if_neg (by simpa using hne)]
  simp only [hpb]
  rw [errsTo_cons_call, errsTo_cons_partitionRes, errsTo_cons_fetchCall,
    errsTo_append, errsTo_pbwc_nil, List.nil_append]
  exact errsTo_map_errSend hnd ht

/-! ### Concrete fixtures used by witnesses and counterexamples -/

/-- Environment with no blocks for any day and an always-failing fetch. -/
def envNoBlocks : Shipper :=
  { getBlockRefs := fun _ _ => Except.ok []
    fetch := fun _ _ _ => Except.error (GwError.other 0) }

/-- Environment that succeeds with no blocks on day 0 and fails block-ref
resolution with `store 1` on every other day. -/
def envDayOneFails : Shipper :=
  { getBlockRefs := fun _ d =>
      if d == 0 then Except.ok [] else Except.error (GwError.store 1)
    fetch := fun _ _ _ => Except.error (GwError.other 0) }

/-! ### Claim theorems -/

/-- Claim C8: the worker loop exits with the dequeue error exactly when the
queue reports itself permanently stopped and zero items were returned; for
any other dequeue error (or an error alongside a non-empty batch) the
iteration increments the dequeue-error counter and then proceeds exactly as
it would have without the error, processing the returned items. -/
theorem c8_dequeue_error_policy (env : Shipper) (items : List QItem)
    (dqErr : Option GwError) :
    ((runIteration env items dqErr).2 = Outcome.exitStopped ↔
      dqErr = some GwError.stopped ∧ items = [])
    ∧ (∀ e, dqErr = some e → ¬(e = GwError.stopped ∧ items = []) →
        runIteration env items dqErr =
          (Event.dequeueErrorInc :: (runIteration env items none).1,
            (runIteration env items none).2)) := by
  constructor
  · constructor
    · intro h
      cases dqErr with
      | none =>
        exact absurd h (iterAfterDequeue_not_exitStopped env none items [])
      | some e =>
        simp only [runIteration] at h
        split at h
        · rename_i hcond
          exact ⟨by rw [hcond.1], by simpa using hcond.2⟩
        · exact absurd h (iterAfterDequeue_not_exitStopped env none items _)
    · rintro ⟨rfl, rfl⟩
      rfl
  · rintro e rfl hne
    simp only [runIteration]
    rw [if_neg (fun hc => hne ⟨hc.1, by simpa using hc.2⟩)]
    rw [iterAfterDequeue_pre env none items [Event.dequeueErrorInc]]
    rfl

/-- Claim C8 witness: a non-stopped dequeue error alongside one item counts
the error and continues exactly as the error-free iteration would. -/
theorem c8_dequeue_error_policy_witness :
    runIteration envNoBlocks [QItem.task (mkTask 0 "a" 0 0 [5])]
        (some (GwError.other 7)) =
      (Event.dequeueErrorInc ::
        (runIteration envNoBlocks [QItem.task (mkTask 0 "a" 0 0 [5])] none).1,
        (runIteration envNoBlocks [QItem.task (mkTask 0 "a" 0 0 [5])] none).2) :=
  (c8_dequeue_error_policy envNoBlocks [QItem.task (mkTask 0 "a" 0 0 [5])]
      (some (GwError.other 7))).2 (GwError.other 7) rfl (fun hc => by cases hc.1)

/-- Claim C9 counterexample: on the queue-stopped exit path (stopped error
with zero items, worker.go line 127) the dequeued batch is not released at
all, contradicting "released exactly once on every exit path, including the
queue-stopped exit". -/
theorem c9_release_counterexample :
    releaseCount (runIteration envNoBlocks [] (some GwError.stopped)).1 = 0
    ∧ (runIteration envNoBlocks [] (some GwError.stopped)).2 =
        Outcome.exitStopped :=
  ⟨rfl, rfl⟩

/-- Claim C9 amended: every dequeued batch is released back to the queue's
pool exactly once on the empty-batch path, the invalid-item exits and normal
completion; on the queue-stopped exit (stopped error and zero items) the
batch is not released at all. -/
theorem c9_release_amended (env : Shipper) (items : List QItem)
    (dqErr : Option GwError) :
    releaseCount (runIteration env items dqErr).1 =
      if dqErr = some GwError.stopped ∧ items.isEmpty then 0 else 1 := by
  cases dqErr with
  | none =>
    rw [if_neg (by simp)]
    exact releaseCount_iterAfterDequeue env none items [] rfl
  | some e =>
    simp only [runIteration]
    by_cases hc : e = GwError.stopped ∧ items.isEmpty = true
    · rw [if_pos hc, if_pos ⟨by rw [hc.1], hc.2⟩]
      rfl
    · rw [if_neg hc, if_neg (fun h => hc ⟨Option.some.inj h.1, h.2⟩)]
      exact releaseCount_iterAfterDequeue env none items [Event.dequeueErrorInc] rfl

/-- Claim C4: for a day bucket whose surviving tasks are `t0 :: rest` and for
which the store returns zero block refs, the day's processing is exactly the
store call followed by one pass-through Output (the fingerprint with an empty
removal set) per fingerprint ref per surviving task; no error is sent, no
partitioning is recorded and no block fetch happens for that day. -/
theorem c4_no_block_passthrough (env : Shipper) (c : Option GwError) (d : Nat)
    (bucket : List Task) (t0 : Task) (rest : List Task)
    (hsurv : bucket.filter (fun t => !t.cancelledAtDay d) = t0 :: rest)
    (hnb : env.getBlockRefs t0.tenant d = Except.ok []) :
    processDay env c d bucket =
      Event.getBlockRefsCall t0.tenant d ::
        (t0 :: rest).flatMap
          (fun t => t.refs.map (fun fp => Event.out t.id ⟨fp, []⟩))
    ∧ (∀ i, errCount (processDay env c d bucket) i = 0)
    ∧ (∀ i, inSomePartition (processDay env c d bucket) i = false)
    ∧ (∀ s d' rs, Event.fetchCall s d' rs ∉ processDay env c d bucket) := by
  have heq : processDay env c d bucket =
      Event.getBlockRefsCall t0.tenant d ::
        (t0 :: rest).flatMap
          (fun t => t.refs.map (fun fp => Event.out t.id ⟨fp, []⟩)) := by
    rw [processDay_eq hsurv, processDayTasks_noBlocks hnb]
  refine ⟨heq, fun i => errCount_processDay_noBlocks hsurv hnb i, ?_, ?_⟩
  · intro i
    rw [heq, inSomePartition, List.any_eq_false]
    intro e he
    rcases List.mem_cons.mp he with rfl | he
    · simp
    · obtain ⟨t, -, he⟩ := List.mem_flatMap.mp he
      obtain ⟨fp, -, rfl⟩ := List.mem_map.mp he
      simp
  · intro s d' rs hmem
    rw [heq] at hmem
    rcases List.mem_cons.mp hmem with heq' | hmem
    · exact absurd heq' (by simp)
    · obtain ⟨t, -, hmem⟩ := List.mem_flatMap.mp hmem
      obtain ⟨fp, -, heq'⟩ := List.mem_map.mp hmem
      exact absurd heq' (by simp)

/-- Claim C4 witness: a no-blocks day with two surviving tasks requesting
fingerprints 10 and 20 produces exactly two pass-through outputs. -/
theorem c4_no_block_passthrough_witness :
    processDay envNoBlocks none 0 [mkTask 1 "t" 0 0 [10], mkTask 2 "t" 0 0 [20]] =
      [Event.getBlockRefsCall "t" 0, Event.out 1 ⟨10, []⟩,
        Event.out 2 ⟨20, []⟩] :=
  ((c4_no_block_passthrough envNoBlocks none 0
      [mkTask 1 "t" 0 0 [10], mkTask 2 "t" 0 0 [20]]
      (mkTask 1 "t" 0 0 [10]) [mkTask 2 "t" 0 0 [20]] rfl rfl).1).trans (by rfl)

/-- Claim C10: a day's processing resolves block refs and fetches blocks
using only the tenant of the first surviving task of that day's bucket
(`tasks[0].Tenant`); both store-call events carry that tenant regardless of
the tenants of the other tasks in the bucket, and the block-ref resolution
call for that tenant does happen. -/
theorem c10_first_tenant (env : Shipper) (c : Option GwError) (d : Nat)
    (bucket : List Task) (t0 : Task) (rest : List Task)
    (hsurv : bucket.filter (fun t => !t.cancelledAtDay d) = t0 :: rest) :
    (∀ s d', Event.getBlockRefsCall s d' ∈ processDay env c d bucket →
      s = t0.tenant)
    ∧ (∀ s d' rs, Event.fetchCall s d' rs ∈ processDay env c d bucket →
      s = t0.tenant)
    ∧ Event.getBlockRefsCall t0.tenant d ∈ processDay env c d bucket := by
  obtain ⟨h1, h2⟩ := @processDay_calls_tenant env c d bucket t0 rest hsurv
  refine ⟨fun s d' h => (h1 s d' h).1, fun s d' rs h => (h2 s d' rs h).1, ?_⟩
  rw [processDay_eq hsurv]
  unfold processDayTasks
  exact List.mem_cons_self ..

/-- Claim C10 witness: a day bucket holding tasks of tenants "a" and "b"
queries the store for tenant "a" (the first task's tenant). -/
theorem c10_first_tenant_witness :
    Event.getBlockRefsCall "a" 0 ∈
      processDay envNoBlocks none 0 [mkTask 0 "a" 0 0 [5], mkTask 1 "b" 0 0 [6]] :=
  (c10_first_tenant envNoBlocks none 0
      [mkTask 0 "a" 0 0 [5], mkTask 1 "b" 0 0 [6]]
      (mkTask 0 "a" 0 0 [5]) [mkTask 1 "b" 0 0 [6]] rfl).2.2

/-- Claim C5: day isolation under failure.  First, a day's processing depends
only on the environment's answers for that same day, so a failure injected
for one day cannot change any other day's events.  Second, if block-ref
resolution fails for a day, every surviving task of that day's bucket
receives exactly that error once and no output, and the day stops.  Third,
if block processing fails for a day, every surviving task of that day's
bucket receives exactly the propagated error once. -/
theorem c5_day_isolation (env env' : Shipper) (c : Option GwError) (d : Nat)
    (bucket : List Task) :
    ((∀ s, env.getBlockRefs s d = env'.getBlockRefs s d) →
      (∀ s rs, env.fetch s d rs = env'.fetch s d rs) →
      processDay env c d bucket = processDay env' c d bucket)
    ∧ (∀ t0 rest e, bucket.filter (fun t => !t.cancelledAtDay d) = t0 :: rest →
        ((t0 :: rest).map Task.id).Nodup →
        env.getBlockRefs t0.tenant d = Except.error e →
        ∀ t ∈ t0 :: rest, errsTo (processDay env c d bucket) t.id = [e]
          ∧ outCount (processDay env c d bucket) t.id = 0)
    ∧ (∀ t0 rest refs er,
        bucket.filter (fun t => !t.cancelledAtDay d) = t0 :: rest →
        ((t0 :: rest).map Task.id).Nodup →
        env.getBlockRefs t0.tenant d = Except.ok refs → refs ≠ [] →
        (processBlocksWithCallback env c t0.tenant d
          (partitionFingerprintRange (t0 :: rest) refs)).2 = some er →
        ∀ t ∈ t0 :: rest,
          errsTo (processDay env c d bucket) t.id = [er]) := by
  refine ⟨fun hg hf => processDay_env_agree hg hf, ?_, ?_⟩
  · intro t0 rest e hsurv hnd herr t ht
    rw [processDay_eq hsurv, processDayTasks_storeErr herr]
    refine ⟨?_, ?_⟩
    · rw [errsTo_cons_call]
      exact errsTo_map_errSend hnd ht
    · rw [outCount, List.countP_cons]
      have h0 := outCount_map_errSend (t0 :: rest) e t.id
      rw [outCount] at h0
      rw [h0]
      rfl
  · intro t0 rest refs er hsurv hnd hok hne hpb t ht
    exact errsTo_processDay_pbwcErr hsurv hnd hok hne hpb ht

/-- Claim C5 witness: on the failing day the single surviving task receives
exactly the store error and no output. -/
theorem c5_day_isolation_witness :
    errsTo (processDay envDayOneFails none 1 [mkTask 0 "t" 0 2 [10]])
        (mkTask 0 "t" 0 2 [10]).id = [GwError.store 1]
    ∧ outCount (processDay envDayOneFails none 1 [mkTask 0 "t" 0 2 [10]])
        (mkTask 0 "t" 0 2 [10]).id = 0 :=
  (c5_day_isolation envDayOneFails envDayOneFails none 1
      [mkTask 0 "t" 0 2 [10]]).2.1 (mkTask 0 "t" 0 2 [10]) [] (GwError.store 1)
    rfl (by simp) rfl (mkTask 0 "t" 0 2 [10]) (List.mem_cons_self ..)

/-- Claim C2 counterexample: the task with id 0 spans days 0 and 1; day 0
has no blocks and passes its fingerprint through as an Output, day 1 fails
block-ref resolution and broadcasts the store error — so within one
iteration the task receives both a result Output and an error, refuting
exclusivity as claimed. -/
theorem c2_exclusivity_counterexample :
    1 ≤ outCount (runIteration envDayOneFails
        [QItem.task (mkTask 0 "t" 0 2 [10])] none).1 0
    ∧ 1 ≤ errCount (runIteration envDayOneFails
        [QItem.task (mkTask 0 "t" 0 2 [10])] none).1 0 := by
  decide

/-- Claim C2 amended: exclusivity holds per day bucket at its failure
points — a day that fails block-ref resolution delivers only errors (no
outputs), and a day with no blocks delivers only outputs (no errors); a task
can receive both a result output and an error only from different day
buckets, or from a day where a later block fails after an earlier block of
the same day already wrote outputs. -/
theorem c2_exclusivity_amended (env : Shipper) (c : Option GwError) (d : Nat)
    (bucket : List Task) (t0 : Task) (rest : List Task)
    (hsurv : bucket.filter (fun t => !t.cancelledAtDay d) = t0 :: rest) :
    (∀ e, env.getBlockRefs t0.tenant d = Except.error e →
      ∀ i, outCount (processDay env c d bucket) i = 0)
    ∧ (env.getBlockRefs t0.tenant d = Except.ok [] →
      ∀ i, errCount (processDay env c d bucket) i = 0) :=
  ⟨fun e herr i => outCount_processDay_storeErr hsurv herr i,
    fun hok i => errCount_processDay_noBlocks hsurv hok i⟩

/-- Claim C2 amended witness: the failing day of the counterexample batch
sends no output at all. -/
theorem c2_exclusivity_amended_witness :
    outCount (processDay envDayOneFails none 1 [mkTask 1 "t" 0 2 [10]]) 1 = 0 :=
  (c2_exclusivity_amended envDayOneFails none 1 [mkTask 1 "t" 0 2 [10]]
      (mkTask 1 "t" 0 2 [10]) [] rfl).1 (GwError.store 1) rfl 1

/-- A concrete fetched block covering fingerprints 0-100 whose engine
writes nothing. -/
def blkSilent : FetchedBlock :=
  { minFp := 0, maxFp := 100, schema := Except.ok 4,
    run := fun _ => Except.ok [] }

/-- Environment with the single block 0-100 for every day. -/
def envOneBlock : Shipper :=
  { getBlockRefs := fun _ _ => Except.ok [⟨0, 100⟩]
    fetch := fun _ _ _ => Except.ok [blkSilent] }

/-- Task 0, never cancelled, fingerprint 5 on day 0. -/
def c3taskA : Task := mkTask 0 "t" 0 0 [5]

/-- Task 1, whose cancellation token is set just before the block query
executes (and at no earlier checkpoint). -/
def c3taskB : Task :=
  { mkTask 1 "t" 0 0 [6] with cancelledAtBlock := fun _ _ _ => true }

/-- Claim C3 counterexample: task 1's token is set just before the block
query executes; the driver aborts the block with the cancellation error, the
whole day then fails, and the non-cancelled task 0 sharing the block query
receives that cancellation error on its error channel — refuting "the
cancellation never causes other, non-cancelled tasks sharing that block
query to receive an error". -/
theorem c3_cancellation_counterexample :
    errsTo (runIteration envOneBlock
        [QItem.task c3taskA, QItem.task c3taskB] none).1 0 = [GwError.canceled]
    ∧ c3taskA.cancelledAtDequeue = false
    ∧ c3taskA.cancelledAtBlock 0 0 100 = false := by
  refine ⟨by decide, rfl, rfl⟩

/-- Claim C3 amended: before executing, the driver checks the shared
cancellation signal and every individual task's token and aborts that
block's processing with the cancellation error rather than running the
query; the abort error is then handled as a day-level failure, so it is
broadcast to every surviving task of the day bucket — non-cancelled tasks
sharing the block query (or the day) do receive the cancellation error. -/
theorem c3_cancellation_check_amended (d : Nat) (blk : FetchedBlock)
    (ts : List Task) (n : Nat) (hs : blk.schema = Except.ok n)
    (hc : ts.any (fun t => t.cancelledAtBlock d blk.minFp blk.maxFp) = true) :
    processBlock none d blk ts = Except.error GwError.canceled
    ∧ (∀ e, processBlock (some e) d blk ts = Except.error e)
    ∧ (∀ env (c' : Option GwError) (bucket : List Task) t0 rest refs,
        bucket.filter (fun t => !t.cancelledAtDay d) = t0 :: rest →
        ((t0 :: rest).map Task.id).Nodup →
        Shipper.getBlockRefs env t0.tenant d = Except.ok refs → refs ≠ [] →
        (processBlocksWithCallback env c' t0.tenant d
          (partitionFingerprintRange (t0 :: rest) refs)).2 =
            some GwError.canceled →
        ∀ t ∈ t0 :: rest,
          errsTo (processDay env c' d bucket) t.id = [GwError.canceled]) := by
  refine ⟨?_, ?_, ?_⟩
  · simp [processBlock, hs, hc]
  · intro e
    simp [processBlock, hs]
  · intro env c' bucket t0 rest refs hsurv hnd hok hne hpb t ht
    exact errsTo_processDay_pbwcErr hsurv hnd hok hne hpb ht

/-- Claim C3 amended witness: with task 1's token set just before the query,
the block is aborted with the cancellation error (the query never runs). -/
theorem c3_cancellation_check_amended_witness :
    processBlock none 0 blkSilent [c3taskB] = Except.error GwError.canceled :=
  (c3_cancellation_check_amended 0 blkSilent [c3taskB] 4 rfl rfl).1

/-- Task 2, whose cancellation token is already set when dequeue processing
reaches it. -/
def c7task : Task := { mkTask 2 "t" 0 0 [30] with cancelledAtDequeue := true }

/-- Claim C7 counterexample: a task cancelled before dequeue processing
reaches it is closed and skipped, but no error is ever sent on its error
channel — the whole iteration trace is the `Close` call and the batch
release, refuting "closed with its own cancellation error delivered to
it". -/
theorem c7_cancel_skip_counterexample :
    (runIteration envNoBlocks [QItem.task c7task] none).1 =
      [Event.close 2, Event.release]
    ∧ errCount (runIteration envNoBlocks [QItem.task c7task] none).1 2 = 0 :=
  ⟨rfl, rfl⟩

/-- Claim C7 amended: every task whose cancellation token is already set
when dequeue processing reaches it is closed immediately (at least one
`Close` call; `Close` is idempotent), is never queried against any block (no
output ever reaches it), never appears in any partitioned task group, and
receives no error on its error channel: the cancellation is observable only
through the task's own token. -/
theorem c7_cancel_skip_amended (env : Shipper) (items : List QItem) (t : Task)
    (hwf : EnvWF env)
    (hall : ∀ i ∈ items, ∃ u, i = QItem.task u)
    (hmem : QItem.task t ∈ items)
    (hc : t.cancelledAtDequeue = true)
    (huniq : ∀ u, QItem.task u ∈ items → u.id = t.id →
      u.cancelledAtDequeue = true) :
    1 ≤ closeCount (runIteration env items none).1 t.id
    ∧ errCount (runIteration env items none).1 t.id = 0
    ∧ outCount (runIteration env items none).1 t.id = 0
    ∧ inSomePartition (runIteration env items none).1 t.id = false := by
  have hne : items ≠ [] := fun h => by rw [h] at hmem; cases hmem
  have hnone := @phaseA_none items [] hall
  have htr : (runIteration env items none).1 =
      (phaseA items []).1 ++ dayEvents env none (phaseA items []).2.1
        ++ closeEvents (phaseA items []).2.1 ++ [Event.release] := by
    have h := @iterAfterDequeue_normal env none items [] hne hnone
    have h1 := congrArg Prod.fst h
    simpa using h1
  have hbuck : ∀ d' u, TaskInBucket (phaseA items []).2.1 d' u →
      u.id ≠ t.id := by
    intro d' u hu hid
    rcases (@phaseA_buckets items [] d' u hall).mp hu with h0 | ⟨hmem', hnc, -⟩
    · obtain ⟨p, hp, -⟩ := h0
      cases hp
    · rw [huniq u hmem' hid] at hnc
      cases hnc
  refine ⟨?_, ?_, ?_, ?_⟩
  · rw [htr, closeCount_append, closeCount_append, closeCount_append]
    have h1 := @closeCount_phaseA_pos items [] t hall hmem hc
    omega
  · rw [htr, errCount, List.countP_eq_zero]
    intro e he
    rcases List.mem_append.mp he with he | he
    · rcases List.mem_append.mp he with he | he
      · rcases List.mem_append.mp he with he | he
        · rcases phaseA_events_shape he with ⟨i, rfl⟩ | rfl <;>
            simp [isErrOf]
        · cases e with
          | errSend j x =>
            obtain ⟨p, hp, u, hu, rfl⟩ := errSend_mem_dayEvents he
            simp only [isErrOf, beq_iff_eq]
            intro hid
            exact hbuck p.1 u ⟨p, hp, rfl, hu⟩ hid
          | _ => simp [isErrOf]
      · obtain ⟨i, rfl⟩ := closeEvents_all_close he
        simp [isErrOf]
    · rcases List.mem_singleton.mp he with rfl
      simp [isErrOf]
  · rw [htr, outCount, List.countP_eq_zero]
    intro e he
    rcases List.mem_append.mp he with he | he
    · rcases List.mem_append.mp he with he | he
      · rcases List.mem_append.mp he with he | he
        · rcases phaseA_events_shape he with ⟨i, rfl⟩ | rfl <;>
            simp [isOutOf]
        · cases e with
          | out j o =>
            obtain ⟨p, hp, u, hu, rfl⟩ := out_mem_dayEvents hwf he
            simp only [isOutOf, beq_iff_eq]
            intro hid
            exact hbuck p.1 u ⟨p, hp, rfl, hu⟩ hid
          | _ => simp [isOutOf]
      · obtain ⟨i, rfl⟩ := closeEvents_all_close he
        simp [isOutOf]
    · rcases List.mem_singleton.mp he with rfl
      simp [isOutOf]
  · rw [htr, inSomePartition, List.any_eq_false]
    intro e he
    rcases List.mem_append.mp he with he | he
    · rcases List.mem_append.mp he with he | he
      · rcases List.mem_append.mp he with he | he
        · rcases phaseA_events_shape he with ⟨i, rfl⟩ | rfl <;> simp
        · cases e with
          | partitionRes d' g =>
            have hids := partitionRes_mem_dayEvents he
            intro hany
            replace hany : (g.any fun gr => gr.2.contains t.id) = true := hany
            rw [List.any_eq_true] at hany
            obtain ⟨pr, hpr, hcont⟩ := hany
            obtain ⟨p, hp, u, hu, hid⟩ := hids pr hpr t.id (by simpa using hcont)
            exact hbuck p.1 u ⟨p, hp, rfl, hu⟩ hid
          | _ => simp
      · obtain ⟨i, rfl⟩ := closeEvents_all_close he
        simp
    · rcases List.mem_singleton.mp he with rfl
      simp

/-- Claim C7 amended witness: the concrete cancelled task is closed, never
partitioned, and receives neither output nor error. -/
theorem c7_cancel_skip_amended_witness :
    1 ≤ closeCount (runIteration envNoBlocks [QItem.task c7task] none).1
        c7task.id
    ∧ errCount (runIteration envNoBlocks [QItem.task c7task] none).1
        c7task.id = 0
    ∧ outCount (runIteration envNoBlocks [QItem.task c7task] none).1
        c7task.id = 0
    ∧ inSomePartition (runIteration envNoBlocks [QItem.task c7task] none).1
        c7task.id = false :=
  c7_cancel_skip_amended envNoBlocks [QItem.task c7task] c7task
    (fun _ _ _ _ h => nomatch h)
    (fun i hi => ⟨c7task, List.mem_singleton.mp hi⟩)
    (List.mem_cons_self ..) rfl
    (fun u hu _ => by rw [List.mem_singleton] at hu; cases QItem.task.inj hu; rfl)

/-- Claim C6: a non-cancelled task with day bounds `[fromDay, throughDay)`
(nonempty) is placed into exactly the buckets of the days from `fromDay`
inclusive to `throughDay` exclusive; the iteration's trace is the bucketing
events, then all day-processing events, then the close loop, then the batch
release; no `Close` call on the task happens before the close loop, and the
close loop closes it (at least one `Close` call, effective exactly once
since `Close` is idempotent) — only after all of its day buckets have been
processed. -/
theorem c6_multi_day_replication (env : Shipper) (items : List QItem) (t : Task)
    (hall : ∀ i ∈ items, ∃ u, i = QItem.task u)
    (hmem : QItem.task t ∈ items)
    (hlt : t.fromDay < t.throughDay)
    (hnc : t.cancelledAtDequeue = false)
    (hncd : ∀ d, t.cancelledAtDay d = false)
    (huniq : ∀ u, QItem.task u ∈ items → u.id = t.id →
      u.cancelledAtDequeue = false) :
    (∀ d, TaskInBucket (phaseA items []).2.1 d t ↔
      t.fromDay ≤ d ∧ d < t.throughDay)
    ∧ (runIteration env items none).1 =
        (phaseA items []).1 ++ dayEvents env none (phaseA items []).2.1
          ++ closeEvents (phaseA items []).2.1 ++ [Event.release]
    ∧ closeCount ((phaseA items []).1
        ++ dayEvents env none (phaseA items []).2.1) t.id = 0
    ∧ 1 ≤ closeCount (closeEvents (phaseA items []).2.1) t.id := by
  have hne : items ≠ [] := fun h => by rw [h] at hmem; cases hmem
  have hnone := @phaseA_none items [] hall
  have hiff : ∀ d, TaskInBucket (phaseA items []).2.1 d t ↔
      t.fromDay ≤ d ∧ d < t.throughDay := by
    intro d
    rw [@phaseA_buckets items [] d t hall]
    constructor
    · rintro (⟨p, hp, -⟩ | ⟨-, -, hd⟩)
      · cases hp
      · exact (taskDays_mem hlt d).mp hd
    · intro hd
      exact Or.inr ⟨hmem, hnc, (taskDays_mem hlt d).mpr hd⟩
  refine ⟨hiff, ?_, ?_, ?_⟩
  · have h := @iterAfterDequeue_normal env none items [] hne hnone
    have h1 := congrArg Prod.fst h
    simpa using h1
  · rw [closeCount_append]
    have hA : closeCount (phaseA items []).1 t.id = 0 := by
      rw [closeCount, List.countP_eq_zero]
      intro e he
      rcases phaseA_events_shape he with ⟨i, rfl⟩ | rfl
      · obtain ⟨u, hu, hcc, rfl⟩ := close_mem_phaseA he
        simp only [isCloseOf, beq_iff_eq]
        intro hid
        rw [huniq u hu hid] at hcc
        cases hcc
      · simp [isCloseOf]
    rw [hA, closeCount_dayEvents]
  · obtain ⟨p, hp, hpd, hin⟩ := (hiff t.fromDay).mpr ⟨Nat.le_refl _, hlt⟩
    exact List.countP_pos_iff.mpr
      ⟨Event.close t.id, closeEvents_mem_of hp hin (hncd p.1),
        by simp [isCloseOf]⟩

/-- Task 3 spanning days 5 and 6 (bounds `[5, 7)`). -/
def c6task : Task := mkTask 3 "t" 5 7 [40]

/-- Claim C6 witness: the two-day task sits in both day buckets and the
close loop closes it. -/
theorem c6_multi_day_replication_witness :
    TaskInBucket (phaseA [QItem.task c6task] []).2.1 5 c6task
    ∧ TaskInBucket (phaseA [QItem.task c6task] []).2.1 6 c6task
    ∧ 1 ≤ closeCount (closeEvents (phaseA [QItem.task c6task] []).2.1)
        c6task.id := by
  have h := c6_multi_day_replication envNoBlocks [QItem.task c6task] c6task
    (fun i hi => ⟨c6task, List.mem_singleton.mp hi⟩)
    (List.mem_cons_self ..) (by decide) rfl (fun d => rfl)
    (fun u hu _ => by rw [List.mem_singleton] at hu; cases QItem.task.inj hu; rfl)
  exact ⟨(h.1 5).mpr (by decide), (h.1 6).mpr (by decide), h.2.2.2⟩

/-- Task 1, accepted at the dequeue check but cancelled before the per-day
filter runs. -/
def c1taskB : Task := { mkTask 1 "t" 0 0 [20] with cancelledAtDay := fun d => d == 0 }

/-- Claim C1 (failing-input exhibit): with the one-day batch
`[task 1, task 0]` where task 1 is accepted at the dequeue check and its
token is set before the per-day cancellation filter, the iteration completes
normally but task 1 receives no output, no error and no `Close` call — it is
silently dropped — while task 0 is reached twice by the close loop.
`slices.DeleteFunc` compacts the kept tasks to the front of the shared
backing array, while the `tasksByDay` map entry keeps the original slice
header, so the close loop iterates `[task0, task0]` instead of
`[task1, task0]`. -/
theorem c1_close_exactly_once_failing :
    closeCount (runIteration envNoBlocks
        [QItem.task c1taskB, QItem.task (mkTask 0 "t" 0 0 [10])] none).1 1 = 0
    ∧ errCount (runIteration envNoBlocks
        [QItem.task c1taskB, QItem.task (mkTask 0 "t" 0 0 [10])] none).1 1 = 0
    ∧ outCount (runIteration envNoBlocks
        [QItem.task c1taskB, QItem.task (mkTask 0 "t" 0 0 [10])] none).1 1 = 0
    ∧ closeCount (runIteration envNoBlocks
        [QItem.task c1taskB, QItem.task (mkTask 0 "t" 0 0 [10])] none).1 0 = 2
    ∧ (runIteration envNoBlocks
        [QItem.task c1taskB, QItem.task (mkTask 0 "t" 0 0 [10])] none).2 =
          Outcome.next := by
  decide

end BloomGateway
